import Mathlib

/-!
Verification of the tile download-and-stitch pipeline of
`src/001/satellite_detection.py`, via a shallow embedding.

Pure functions of the script become Lean functions; the network, the image
decoder, the coordinate reprojection and the area tiler (external
collaborators: `requests`, `PIL`, `geopandas`, `mercantile`) enter as explicit
function parameters or as small models written from the library behaviour the
script relies on, as noted on each definition.
-/

namespace SatDetect

/-- Constant `TILE_SIZE = 256` from the source. -/
def TILE_SIZE : Nat := 256

/-- Constant `STITCHED_SIZE = 512` from the source. -/
def STITCHED_SIZE : Nat := 512

/-- A slippy-map tile address, embedding `mercantile.Tile(x, y, z)`. -/
structure Tile where
  x : Int
  y : Int
  z : Nat
deriving DecidableEq

/-- An RGB pixel value. -/
abbrev RGB := Nat × Nat × Nat

/-- A pixel buffer, embedding a PIL image: a size plus pixel values.  Pixel
positions outside `width × height` are phantom; the functions below never
depend on them except to leave them at the canvas background. -/
structure Img where
  width : Nat
  height : Nat
  px : Nat → Nat → RGB

/-- Embeds `Image.new("RGB", (w, h))`: a canvas filled with black `(0,0,0)`. -/
def imageNew (w h : Nat) : Img :=
  { width := w, height := h, px := fun _ _ => (0, 0, 0) }

/-- Embeds `canvas.paste(tileImg, (ox, oy))` of PIL: pixels of `tileImg` are
copied into the rectangle of the canvas starting at `(ox, oy)`, clipped to the
canvas extent; the canvas size is unchanged. -/
def paste (canvas tileImg : Img) (ox oy : Nat) : Img :=
  { canvas with
    px := fun i j =>
      if i < canvas.width ∧ j < canvas.height ∧
          ox ≤ i ∧ i < ox + tileImg.width ∧ oy ≤ j ∧ j < oy + tileImg.height then
        tileImg.px (i - ox) (j - oy)
      else canvas.px i j }

/-- The body of the loop in `stitch_tiles`: for pair `(i, tile)`, if the tile
is present, paste it at `((i % 2) * TILE_SIZE, (i // 2) * TILE_SIZE)`.
(`if tile:` on a PIL image is `tile is not None`.) -/
def stitchStep (canvas : Img) (it : Nat × Option Img) : Img :=
  match it.2 with
  | some tileImg => paste canvas tileImg (it.1 % 2 * TILE_SIZE) (it.1 / 2 * TILE_SIZE)
  | none => canvas

/-- Embeds `stitch_tiles`: allocate a `STITCHED_SIZE` square black canvas and
fold the enumerated tile list through `stitchStep`. -/
def stitch_tiles (tiles : List (Option Img)) : Img :=
  tiles.enum.foldl stitchStep (imageNew STITCHED_SIZE STITCHED_SIZE)

/-- Outcome of one `requests.get(url, stream=True, timeout=10)` call: either
the call raises (timeout, connection failure, or any other exception), or it
returns a response carrying a status code and body bytes. -/
inductive NetResult where
  | raises (msg : String)
  | response (status : Nat) (content : List Nat)

/-- Embeds `tile_url.format(x=tile.x, y=tile.y, z=tile.z)` for a plain
placeholder template. -/
def buildUrl (template : String) (t : Tile) : String :=
  ((template.replace "\x7bx\x7d" (toString t.x)).replace
    "\x7by\x7d" (toString t.y)).replace "\x7bz\x7d" (toString t.z)

/-- Embeds `download_tile`.  `net` gives the outcome of the network call for
a URL; `decode` embeds `Image.open(io.BytesIO(content))`, with `none` standing
for a decode error, raised and caught by the `except` block.  Every failure
branch of the source returns `None`; the embedding being a total function is
the shallow counterpart of "never raises past its boundary". -/
def download_tile (net : String → NetResult) (decode : List Nat → Option Img)
    (t : Tile) (tile_url : String) : Option Img :=
  match net (buildUrl tile_url t) with
  | .raises _ => none
  | .response status content =>
    if status = 200 then decode content else none

lemma stitchStep_width (c : Img) (it : Nat × Option Img) :
    (stitchStep c it).width = c.width := by
  rcases it with ⟨k, _ | im⟩ <;> rfl

lemma stitchStep_height (c : Img) (it : Nat × Option Img) :
    (stitchStep c it).height = c.height := by
  rcases it with ⟨k, _ | im⟩ <;> rfl

lemma foldl_stitchStep_width :
    ∀ (l : List (Nat × Option Img)) (c : Img), (l.foldl stitchStep c).width = c.width := by
  intro l
  induction l with
  | nil => intro c; rfl
  | cons hd tl ih => intro c; rw [List.foldl_cons, ih, stitchStep_width]

lemma foldl_stitchStep_height :
    ∀ (l : List (Nat × Option Img)) (c : Img), (l.foldl stitchStep c).height = c.height := by
  intro l
  induction l with
  | nil => intro c; rfl
  | cons hd tl ih => intro c; rw [List.foldl_cons, ih, stitchStep_height]

/-- Claim C1: for every tile address and URL template, `download_tile` maps
every failure mode — raised exception (timeout, connection failure), non-200
HTTP status, or decode failure — to `none`, and it returns an image only for
a 200 response whose body decodes; being a total Lean function, it cannot
propagate an exception past its boundary. -/
theorem download_tile_failures_absent (net : String → NetResult)
    (decode : List Nat → Option Img) (t : Tile) (url : String) :
    (∀ m, net (buildUrl url t) = .raises m → download_tile net decode t url = none) ∧
    (∀ s c, net (buildUrl url t) = .response s c → s ≠ 200 →
      download_tile net decode t url = none) ∧
    (∀ c, net (buildUrl url t) = .response 200 c → decode c = none →
      download_tile net decode t url = none) ∧
    (∀ img, download_tile net decode t url = some img →
      ∃ c, net (buildUrl url t) = .response 200 c ∧ decode c = some img) := by
  refine ⟨?_, ?_, ?_, ?_⟩
  · intro m hm
    simp [download_tile, hm]
  · intro s c hc hs
    simp [download_tile, hc, hs]
  · intro c hc hd
    simp [download_tile, hc, hd]
  · intro img himg
    unfold download_tile at himg
    rcases h : net (buildUrl url t) with m | ⟨s, c⟩
    · rw [h] at himg
      simp at himg
    · rw [h] at himg
      by_cases hs : s = 200
      · subst hs
        simp at himg
        exact ⟨c, rfl, himg⟩
      · simp [hs] at himg

/-- Witness for C1: a timed-out fetch yields `none`. -/
theorem download_tile_failures_absent_witness :
    download_tile (fun _ => .raises "timed out") (fun _ => none) ⟨0, 0, 0⟩ "u" = none :=
  (download_tile_failures_absent (fun _ => .raises "timed out") (fun _ => none)
    ⟨0, 0, 0⟩ "u").1 "timed out" rfl

/-- Claim C2: `stitch_tiles` is total, its canvas is always exactly
`STITCHED_SIZE = 2 * TILE_SIZE` pixels on each side whatever the input list
(in particular for every list of four optional tiles, any subset present),
and the empty subset (all four absent) produces an all-blank canvas. -/
theorem stitch_tiles_size_and_blank :
    (∀ tiles : List (Option Img),
      (stitch_tiles tiles).width = STITCHED_SIZE ∧
        (stitch_tiles tiles).height = STITCHED_SIZE) ∧
    (∀ i j, (stitch_tiles [none, none, none, none]).px i j = (0, 0, 0)) := by
  constructor
  · intro tiles
    exact ⟨foldl_stitchStep_width _ _, foldl_stitchStep_height _ _⟩
  · intro i j
    rfl

/-- The pixel contribution of one optional quadrant image pasted at
`(ox, oy)` over a previous value `prev`, for an in-canvas position. -/
def pasteVal (o : Option Img) (ox oy i j : Nat) (prev : RGB) : RGB :=
  match o with
  | none => prev
  | some im =>
    if ox ≤ i ∧ i < ox + im.width ∧ oy ≤ j ∧ j < oy + im.height then
      im.px (i - ox) (j - oy)
    else prev

lemma pasteVal_out (o : Option Img) (ox oy i j : Nat) (prev : RGB)
    (h : ∀ im, o = some im →
      ¬(ox ≤ i ∧ i < ox + im.width ∧ oy ≤ j ∧ j < oy + im.height)) :
    pasteVal o ox oy i j prev = prev := by
  cases o with
  | none => rfl
  | some im => exact if_neg (h im rfl)

lemma stitch4_eq (a b c d : Option Img) :
    stitch_tiles [a, b, c, d] =
      stitchStep (stitchStep (stitchStep (stitchStep
        (imageNew STITCHED_SIZE STITCHED_SIZE) (0, a)) (1, b)) (2, c)) (3, d) := rfl

lemma paste_px (c im : Img) (ox oy i j : Nat) (hi : i < c.width) (hj : j < c.height) :
    (paste c im ox oy).px i j =
      if ox ≤ i ∧ i < ox + im.width ∧ oy ≤ j ∧ j < oy + im.height then
        im.px (i - ox) (j - oy)
      else c.px i j := by
  show (if i < c.width ∧ j < c.height ∧
      ox ≤ i ∧ i < ox + im.width ∧ oy ≤ j ∧ j < oy + im.height then
    im.px (i - ox) (j - oy)
  else c.px i j) = _
  exact if_congr ⟨fun h => h.2.2, fun hp => ⟨hi, hj, hp⟩⟩ rfl rfl

lemma stitchStep_px (c0 : Img) (k : Nat) (o : Option Img) (i j : Nat)
    (hi : i < c0.width) (hj : j < c0.height) :
    (stitchStep c0 (k, o)).px i j =
      pasteVal o (k % 2 * TILE_SIZE) (k / 2 * TILE_SIZE) i j (c0.px i j) := by
  cases o with
  | none => rfl
  | some im => exact paste_px c0 im _ _ i j hi hj

lemma stitch4_px (a b c d : Option Img) (i j : Nat)
    (hi : i < STITCHED_SIZE) (hj : j < STITCHED_SIZE) :
    (stitch_tiles [a, b, c, d]).px i j =
      pasteVal d TILE_SIZE TILE_SIZE i j
        (pasteVal c 0 TILE_SIZE i j
          (pasteVal b TILE_SIZE 0 i j
            (pasteVal a 0 0 i j (0, 0, 0)))) := by
  rw [stitch4_eq]
  set c0 := imageNew STITCHED_SIZE STITCHED_SIZE with hc0
  set c1 := stitchStep c0 (0, a) with hc1
  set c2 := stitchStep c1 (1, b) with hc2
  set c3 := stitchStep c2 (2, c) with hc3
  have w0 : c0.width = STITCHED_SIZE := rfl
  have g0 : c0.height = STITCHED_SIZE := rfl
  have w1 : c1.width = STITCHED_SIZE := by rw [hc1, stitchStep_width, w0]
  have g1 : c1.height = STITCHED_SIZE := by rw [hc1, stitchStep_height, g0]
  have w2 : c2.width = STITCHED_SIZE := by rw [hc2, stitchStep_width, w1]
  have g2 : c2.height = STITCHED_SIZE := by rw [hc2, stitchStep_height, g1]
  have w3 : c3.width = STITCHED_SIZE := by rw [hc3, stitchStep_width, w2]
  have g3 : c3.height = STITCHED_SIZE := by rw [hc3, stitchStep_height, g2]
  rw [stitchStep_px c3 3 d i j (by rw [w3]; exact hi) (by rw [g3]; exact hj)]
  rw [hc3, stitchStep_px c2 2 c i j (by rw [w2]; exact hi) (by rw [g2]; exact hj)]
  rw [hc2, stitchStep_px c1 1 b i j (by rw [w1]; exact hi) (by rw [g1]; exact hj)]
  rw [hc1, stitchStep_px c0 0 a i j (by rw [w0]; exact hi) (by rw [g0]; exact hj)]
  norm_num
  rfl

/-- Every present image in the slot fits within one tile unit (the size that
tile-server tiles actually have). -/
def fitsTile (o : Option Img) : Prop :=
  ∀ im, o = some im → im.width ≤ TILE_SIZE ∧ im.height ≤ TILE_SIZE

/-- What a quadrant of the stitched canvas shows of its own input: the
input's pixels within its extent, the blank background beyond it, and all
blank when the input is absent. -/
def quadVal (o : Option Img) (dx dy : Nat) : RGB :=
  match o with
  | none => (0, 0, 0)
  | some im => if dx < im.width ∧ dy < im.height then im.px dx dy else (0, 0, 0)

/-- A 512-pixel-square all-white image: a present stitch input larger than
one tile unit. -/
def bigImg : Img :=
  { width := 512, height := 512, px := fun _ _ => (255, 255, 255) }

/-- Counterexample to claim C3 as stated: with input 0 present but larger
than one tile unit and input 1 absent, the pixel `(300, 10)` — inside the
top-right quadrant, whose input is absent — is white, not blank, because the
oversized input 0 bleeds across the quadrant boundary. -/
theorem stitch_tiles_absent_quadrant_not_blank :
    [some bigImg, none, none, none].get? 1 = some none ∧
    TILE_SIZE ≤ 300 ∧ 300 < STITCHED_SIZE ∧ 10 < TILE_SIZE ∧
    (stitch_tiles [some bigImg, none, none, none]).px 300 10 = (255, 255, 255) ∧
    ((255, 255, 255) : RGB) ≠ (0, 0, 0) := by
  refine ⟨rfl, by decide, by decide, by decide, ?_, by decide⟩
  rfl

/-- Claim C3 (amended): provided every present input fits within one tile
unit, placement is deterministic and independent of image content: input 0
is pasted with its corner at the top-left quadrant offset `(0, 0)`, input 1
at the top-right `(TILE_SIZE, 0)`, input 2 at the bottom-left
`(0, TILE_SIZE)`, input 3 at the bottom-right `(TILE_SIZE, TILE_SIZE)`, and
a quadrant whose input is absent is left blank (zero-filled). -/
theorem stitch_tiles_quadrant_placement (a b c d : Option Img)
    (ha : fitsTile a) (hb : fitsTile b) (hc : fitsTile c) (hd : fitsTile d) :
    ∀ dx dy, dx < TILE_SIZE → dy < TILE_SIZE →
      (stitch_tiles [a, b, c, d]).px dx dy = quadVal a dx dy ∧
      (stitch_tiles [a, b, c, d]).px (TILE_SIZE + dx) dy = quadVal b dx dy ∧
      (stitch_tiles [a, b, c, d]).px dx (TILE_SIZE + dy) = quadVal c dx dy ∧
      (stitch_tiles [a, b, c, d]).px (TILE_SIZE + dx) (TILE_SIZE + dy) =
        quadVal d dx dy := by
  intro dx dy hdx hdy
  have hT : TILE_SIZE = 256 := rfl
  have hS : STITCHED_SIZE = 512 := rfl
  refine ⟨?_, ?_, ?_, ?_⟩
  · rw [stitch4_px a b c d dx dy (by omega) (by omega)]
    rw [pasteVal_out d _ _ _ _ _ (fun im _ => by omega)]
    rw [pasteVal_out c _ _ _ _ _ (fun im _ => by omega)]
    rw [pasteVal_out b _ _ _ _ _ (fun im _ => by omega)]
    cases a with
    | none => rfl
    | some ia => simp [pasteVal, quadVal]
  · rw [stitch4_px a b c d _ _ (by omega) (by omega)]
    rw [pasteVal_out d _ _ _ _ _ (fun im _ => by omega)]
    rw [pasteVal_out c _ _ _ _ _ (fun im _ => by omega)]
    rw [pasteVal_out a _ _ _ _ _
      (fun im him => by have := (ha im him).1; omega)]
    cases b with
    | none => rfl
    | some ib =>
      simp only [pasteVal, quadVal]
      have h1 : (TILE_SIZE ≤ TILE_SIZE + dx ∧ TILE_SIZE + dx < TILE_SIZE + ib.width ∧
          0 ≤ dy ∧ dy < 0 + ib.height) ↔ (dx < ib.width ∧ dy < ib.height) := by
        constructor
        · intro h; omega
        · intro h; omega
      rw [if_congr h1 rfl rfl]
      by_cases hcond : dx < ib.width ∧ dy < ib.height
      · rw [if_pos hcond, if_pos hcond]
        have e1 : TILE_SIZE + dx - TILE_SIZE = dx := by omega
        have e2 : dy - 0 = dy := by omega
        rw [e1, e2]
      · rw [if_neg hcond, if_neg hcond]
  · rw [stitch4_px a b c d _ _ (by omega) (by omega)]
    rw [pasteVal_out d _ _ _ _ _ (fun im _ => by omega)]
    rw [pasteVal_out b _ _ _ _ _ (fun im _ => by omega)]
    rw [pasteVal_out a _ _ _ _ _
      (fun im him => by have := (ha im him).2; omega)]
    cases c with
    | none => rfl
    | some ic =>
      simp only [pasteVal, quadVal]
      have h1 : (0 ≤ dx ∧ dx < 0 + ic.width ∧ TILE_SIZE ≤ TILE_SIZE + dy ∧
          TILE_SIZE + dy < TILE_SIZE + ic.height) ↔ (dx < ic.width ∧ dy < ic.height) := by
        constructor
        · intro h; omega
        · intro h; omega
      rw [if_congr h1 rfl rfl]
      by_cases hcond : dx < ic.width ∧ dy < ic.height
      · rw [if_pos hcond, if_pos hcond]
        have e1 : dx - 0 = dx := by omega
        have e2 : TILE_SIZE + dy - TILE_SIZE = dy := by omega
        rw [e1, e2]
      · rw [if_neg hcond, if_neg hcond]
  · rw [stitch4_px a b c d _ _ (by omega) (by omega)]
    rw [pasteVal_out c _ _ _ _ _
      (fun im him => by have := (hc im him).1; omega)]
    rw [pasteVal_out b _ _ _ _ _
      (fun im him => by have := (hb im him).2; omega)]
    rw [pasteVal_out a _ _ _ _ _
      (fun im him => by have h1 := (ha im him).1; omega)]
    cases d with
    | none => rfl
    | some id2 =>
      simp only [pasteVal, quadVal]
      have h1 : (TILE_SIZE ≤ TILE_SIZE + dx ∧ TILE_SIZE + dx < TILE_SIZE + id2.width ∧
          TILE_SIZE ≤ TILE_SIZE + dy ∧ TILE_SIZE + dy < TILE_SIZE + id2.height) ↔
          (dx < id2.width ∧ dy < id2.height) := by
        constructor
        · intro h; omega
        · intro h; omega
      rw [if_congr h1 rfl rfl]
      by_cases hcond : dx < id2.width ∧ dy < id2.height
      · rw [if_pos hcond, if_pos hcond]
        have e1 : TILE_SIZE + dx - TILE_SIZE = dx := by omega
        have e2 : TILE_SIZE + dy - TILE_SIZE = dy := by omega
        rw [e1, e2]
      · rw [if_neg hcond, if_neg hcond]

/-- A tile-unit-sized test image whose pixel values encode their position. -/
def smallImg : Img :=
  { width := 256, height := 256, px := fun i j => (i, j, 7) }

/-- Witness for the amended C3: with input 0 a tile-unit image and the other
three absent, the top-left quadrant shows input 0 and the top-right quadrant
is blank at a sample position. -/
theorem stitch_tiles_quadrant_placement_witness :
    (stitch_tiles [some smallImg, none, none, none]).px 3 4 = quadVal (some smallImg) 3 4 ∧
    (stitch_tiles [some smallImg, none, none, none]).px (TILE_SIZE + 3) 4 = quadVal none 3 4 := by
  have h := stitch_tiles_quadrant_placement (some smallImg) none none none
    (fun im him => by cases him; exact ⟨le_refl _, le_refl _⟩)
    (fun im him => by cases him)
    (fun im him => by cases him)
    (fun im him => by cases him)
    3 4 (by decide) (by decide)
  exact ⟨h.1, h.2.1⟩

/-- The geographic bounding box returned by `mercantile.bounds(tile)`
(west, south, east, north).  The pipeline never computes with the values, it
only repackages them, so the bounds function of the external library enters
the pipeline embedding as an explicit parameter. -/
structure LngLatBbox where
  west : Rat
  south : Rat
  east : Rat
  north : Rat
deriving DecidableEq

/-- Embeds `shapely.geometry.box(minx, miny, maxx, maxy)`: the axis-aligned
rectangle polygon with those bounds. -/
structure Rect where
  minx : Rat
  miny : Rat
  maxx : Rat
  maxy : Rat
deriving DecidableEq

/-- `shapely.geometry.box`. -/
def box (minx miny maxx maxy : Rat) : Rect :=
  ⟨minx, miny, maxx, maxy⟩

/-- One entry of `metadata_list`: `{"filename": ..., "geometry": ...}`. -/
structure TileRecord where
  filename : String
  geometry : Rect
deriving DecidableEq

/-- Embeds the f-string `f"\x7btile.x\x7d_\x7btile.y\x7d_\x7btile.z\x7d.jpg"`. -/
def fname (t : Tile) : String :=
  toString t.x ++ "_" ++ toString t.y ++ "_" ++ toString t.z ++ ".jpg"

/-- The four subtile addresses fetched for base tile `t`, in source order:
the tile itself, column+1, row+1, and column+1/row+1, all at the same zoom. -/
def neighbors (t : Tile) : List Tile :=
  [t, ⟨t.x + 1, t.y, t.z⟩, ⟨t.x, t.y + 1, t.z⟩, ⟨t.x + 1, t.y + 1, t.z⟩]

/-- The footprint record appended for base tile `t`:
`box(tile_bounds.west, tile_bounds.south, tile_bounds.east, tile_bounds.north)`
with `tile_bounds = mercantile.bounds(tile)`. -/
def recordOf (bounds : Tile → LngLatBbox) (t : Tile) : TileRecord :=
  ⟨fname t, box (bounds t).west (bounds t).south (bounds t).east (bounds t).north⟩

/-- Observable state of the download loop of `download_tiles_pipeline`:
the network calls issued so far (in order), the image files written (name and
content, in write order), the accumulated `metadata_list`, the `downloaded`
counter, and the counter values at which a progress message was logged. -/
structure PipeState where
  fetchCalls : List Tile
  files : List (String × Img)
  metadata : List TileRecord
  downloaded : Nat
  progress : List Nat

/-- The stitched image produced for base tile `t` when its four subtile
fetches are network calls number `n`..`n+3`.  `fetch k u` is the result of
`download_tile` for address `u` as call number `k`; indexing calls keeps
distinct network requests distinct. -/
def stitchAt (fetch : Nat → Tile → Option Img) (n : Nat) (t : Tile) : Img :=
  stitch_tiles [fetch n t, fetch (n + 1) ⟨t.x + 1, t.y, t.z⟩,
    fetch (n + 2) ⟨t.x, t.y + 1, t.z⟩, fetch (n + 3) ⟨t.x + 1, t.y + 1, t.z⟩]

/-- Embeds the body of the per-tile loop of `download_tiles_pipeline`:
download the four subtiles, stitch, save the file, append the footprint
record, bump the counter, and log progress when the counter is a multiple of
5 or equals the upfront total. -/
def processTile (fetch : Nat → Tile → Option Img) (bounds : Tile → LngLatBbox)
    (total : Nat) (st : PipeState) (t : Tile) : PipeState :=
  { fetchCalls := st.fetchCalls ++ neighbors t
    files := st.files ++ [(fname t, stitchAt fetch st.fetchCalls.length t)]
    metadata := st.metadata ++ [recordOf bounds t]
    downloaded := st.downloaded + 1
    progress :=
      if (st.downloaded + 1) % 5 == 0 || (st.downloaded + 1) == total then
        st.progress ++ [st.downloaded + 1]
      else st.progress }

/-- Embeds `download_tiles_pipeline` after GeoJSON validation: `polys` are
the rows of the GeoDataFrame, `tiler` embeds
`get_tiles_for_bbox(geom.bounds, zoom)` (the `gdf["tiles"]` column), `fetch`
the results of `download_tile` for successive network calls, and `bounds`
the external `mercantile.bounds`.  `total_tiles` is computed up front as the
sum of the per-polygon tile counts, then the nested loops run. -/
def download_tiles_pipeline {P : Type} (polys : List P) (tiler : P → List Tile)
    (fetch : Nat → Tile → Option Img) (bounds : Tile → LngLatBbox) : PipeState :=
  let total := (polys.map fun p => (tiler p).length).sum
  polys.foldl (fun st p => (tiler p).foldl (processTile fetch bounds total) st)
    ⟨[], [], [], 0, []⟩

/-- The files written for a tile list when the first network call of the run
has index `n`. -/
def filesChar (fetch : Nat → Tile → Option Img) : Nat → List Tile → List (String × Img)
  | _, [] => []
  | n, t :: ts => (fname t, stitchAt fetch n t) :: filesChar fetch (n + 4) ts

/-- The progress observations emitted while the counter climbs from `d` by
`count` completions, with the given upfront `total`. -/
def progChar (total : Nat) : Nat → Nat → List Nat
  | _, 0 => []
  | d, c + 1 =>
    (if (d + 1) % 5 == 0 || (d + 1) == total then [d + 1] else []) ++
      progChar total (d + 1) c

lemma filesChar_append (fetch : Nat → Tile → Option Img) :
    ∀ (ts1 ts2 : List Tile) (n : Nat),
      filesChar fetch n (ts1 ++ ts2) =
        filesChar fetch n ts1 ++ filesChar fetch (n + 4 * ts1.length) ts2 := by
  intro ts1
  induction ts1 with
  | nil => intro ts2 n; simp [filesChar]
  | cons t ts ih =>
    intro ts2 n
    rw [List.cons_append]
    rw [filesChar, filesChar, ih ts2 (n + 4), List.cons_append]
    have e : n + 4 + 4 * ts.length = n + 4 * (ts.length + 1) := by omega
    rw [e]
    rfl

lemma progChar_append (total : Nat) :
    ∀ (c1 c2 d : Nat),
      progChar total d (c1 + c2) = progChar total d c1 ++ progChar total (d + c1) c2 := by
  intro c1
  induction c1 with
  | zero => intro c2 d; simp [progChar]
  | succ c ih =>
    intro c2 d
    have e : c + 1 + c2 = (c + c2) + 1 := by omega
    rw [e, progChar, progChar, ih c2 (d + 1), List.append_assoc]
    have e2 : d + 1 + c = d + (c + 1) := by omega
    rw [e2]

lemma length_flatMap_neighbors :
    ∀ ts : List Tile, (ts.flatMap neighbors).length = 4 * ts.length := by
  intro ts
  induction ts with
  | nil => rfl
  | cons t ts ih =>
    rw [List.flatMap_cons, List.length_append, ih]
    simp [neighbors]
    omega

lemma foldl_processTile_eq (fetch : Nat → Tile → Option Img)
    (bounds : Tile → LngLatBbox) (total : Nat) :
    ∀ (ts : List Tile) (st : PipeState),
      ts.foldl (processTile fetch bounds total) st =
        { fetchCalls := st.fetchCalls ++ ts.flatMap neighbors
          files := st.files ++ filesChar fetch st.fetchCalls.length ts
          metadata := st.metadata ++ ts.map (recordOf bounds)
          downloaded := st.downloaded + ts.length
          progress := st.progress ++ progChar total st.downloaded ts.length } := by
  intro ts
  induction ts with
  | nil =>
    intro st
    cases st
    simp [filesChar, progChar]
  | cons t ts ih =>
    intro st
    rw [List.foldl_cons, ih]
    simp only [processTile, PipeState.mk.injEq]
    refine ⟨?_, ?_, ?_, ?_, ?_⟩
    · rw [List.flatMap_cons, List.append_assoc]
    · rw [filesChar, List.length_append]
      have e : (neighbors t).length = 4 := rfl
      rw [e, List.append_assoc]
      rfl
    · rw [List.map_cons, List.append_assoc]
      rfl
    · rw [List.length_cons]
      omega
    · rw [List.length_cons, progChar]
      by_cases h : ((st.downloaded + 1) % 5 == 0 || (st.downloaded + 1) == total) = true
      · rw [if_pos h, if_pos h, List.append_assoc]
      · rw [if_neg h, if_neg h, List.nil_append]

lemma foldl_polys_eq {P : Type} (tiler : P → List Tile)
    (fetch : Nat → Tile → Option Img) (bounds : Tile → LngLatBbox) (total : Nat) :
    ∀ (polys : List P) (st : PipeState),
      polys.foldl (fun st p => (tiler p).foldl (processTile fetch bounds total) st) st =
        { fetchCalls := st.fetchCalls ++ (polys.flatMap tiler).flatMap neighbors
          files := st.files ++ filesChar fetch st.fetchCalls.length (polys.flatMap tiler)
          metadata := st.metadata ++ (polys.flatMap tiler).map (recordOf bounds)
          downloaded := st.downloaded + (polys.flatMap tiler).length
          progress := st.progress ++ progChar total st.downloaded (polys.flatMap tiler).length } := by
  intro polys
  induction polys with
  | nil =>
    intro st
    cases st
    simp [filesChar, progChar]
  | cons p polys ih =>
    intro st
    rw [List.foldl_cons, foldl_processTile_eq, ih]
    simp only [PipeState.mk.injEq]
    refine ⟨?_, ?_, ?_, ?_, ?_⟩
    · rw [List.flatMap_cons, List.flatMap_append, List.append_assoc]
    · rw [List.flatMap_cons, filesChar_append, List.length_append,
        length_flatMap_neighbors, List.append_assoc]
    · rw [List.flatMap_cons, List.map_append, List.append_assoc]
    · rw [List.flatMap_cons, List.length_append]
      omega
    · rw [List.flatMap_cons, List.length_append, progChar_append, List.append_assoc]

/-- Full characterization of the pipeline run: with `tl` the concatenation of
every polygon covering tile list (in polygon order, then tile order), the run
issues the four-neighbor fetches of each tile of `tl` in order, writes one
file per tile, appends one footprint record per tile, counts `tl.length`
completions, and logs progress at multiples of 5 and at the total. -/
lemma download_tiles_pipeline_eq {P : Type} (polys : List P) (tiler : P → List Tile)
    (fetch : Nat → Tile → Option Img) (bounds : Tile → LngLatBbox) :
    download_tiles_pipeline polys tiler fetch bounds =
      { fetchCalls := (polys.flatMap tiler).flatMap neighbors
        files := filesChar fetch 0 (polys.flatMap tiler)
        metadata := (polys.flatMap tiler).map (recordOf bounds)
        downloaded := (polys.flatMap tiler).length
        progress := progChar (polys.flatMap tiler).length 0 (polys.flatMap tiler).length } := by
  unfold download_tiles_pipeline
  have htot : (polys.map fun p => (tiler p).length).sum = (polys.flatMap tiler).length := by
    rw [List.length_flatMap]
    rfl
  rw [htot, foldl_polys_eq]
  simp

lemma filesChar_length (fetch : Nat → Tile → Option Img) :
    ∀ (ts : List Tile) (n : Nat), (filesChar fetch n ts).length = ts.length := by
  intro ts
  induction ts with
  | nil => intro n; rfl
  | cons t ts ih => intro n; rw [filesChar, List.length_cons, List.length_cons, ih]

lemma filesChar_get (fetch : Nat → Tile → Option Img) :
    ∀ (ts : List Tile) (n k : Nat),
      (filesChar fetch n ts).get? k =
        (ts.get? k).map fun t => (fname t, stitchAt fetch (n + 4 * k) t) := by
  intro ts
  induction ts with
  | nil => intro n k; rfl
  | cons t ts ih =>
    intro n k
    cases k with
    | zero => simp [filesChar]
    | succ k =>
      rw [filesChar]
      show (filesChar fetch (n + 4) ts).get? k = _
      rw [ih (n + 4) k]
      have e : n + 4 + 4 * k = n + 4 * (k + 1) := by omega
      rw [e]
      rfl

/-- Claim C4: for a covering tile `t` processed at position `k`, when all
four of its subtile fetches fail the pipeline still writes its stitched image
file — fully blank — and still appends its footprint record; and no covering
tile is ever skipped: one file and one record exist per covering tile. -/
theorem pipeline_blank_tile_still_written {P : Type} (polys : List P)
    (tiler : P → List Tile) (fetch : Nat → Tile → Option Img)
    (bounds : Tile → LngLatBbox) (k : Nat) (t : Tile)
    (ht : (polys.flatMap tiler).get? k = some t)
    (h0 : fetch (4 * k) t = none)
    (h1 : fetch (4 * k + 1) ⟨t.x + 1, t.y, t.z⟩ = none)
    (h2 : fetch (4 * k + 2) ⟨t.x, t.y + 1, t.z⟩ = none)
    (h3 : fetch (4 * k + 3) ⟨t.x + 1, t.y + 1, t.z⟩ = none) :
    (download_tiles_pipeline polys tiler fetch bounds).files.get? k =
        some (fname t, stitch_tiles [none, none, none, none]) ∧
    (∀ i j, (stitch_tiles [none, none, none, none]).px i j = (0, 0, 0)) ∧
    (download_tiles_pipeline polys tiler fetch bounds).metadata.get? k =
        some (recordOf bounds t) ∧
    (download_tiles_pipeline polys tiler fetch bounds).files.length =
        (polys.flatMap tiler).length ∧
    (download_tiles_pipeline polys tiler fetch bounds).metadata.length =
        (polys.flatMap tiler).length := by
  rw [download_tiles_pipeline_eq]
  refine ⟨?_, ?_, ?_, ?_, ?_⟩
  · show (filesChar fetch 0 (polys.flatMap tiler)).get? k = _
    rw [filesChar_get, ht]
    have e : 0 + 4 * k = 4 * k := by omega
    rw [Option.map_some', e]
    unfold stitchAt
    rw [h0, h1, h2, h3]
  · intro i j
    rfl
  · show ((polys.flatMap tiler).map (recordOf bounds)).get? k = _
    rw [List.get?_map, ht]
    rfl
  · exact filesChar_length fetch _ 0
  · exact List.length_map _ _

/-- Witness for C4: a run over one polygon covering one tile, with every
fetch failing, still writes the blank file and the record. -/
theorem pipeline_blank_tile_still_written_witness :
    (download_tiles_pipeline [()] (fun _ => [⟨0, 0, 0⟩]) (fun _ _ => none)
        (fun _ => ⟨0, 0, 0, 0⟩)).files.get? 0 =
      some (fname ⟨0, 0, 0⟩, stitch_tiles [none, none, none, none]) :=
  (pipeline_blank_tile_still_written [()] (fun _ => [⟨0, 0, 0⟩]) (fun _ _ => none)
    (fun _ => ⟨0, 0, 0, 0⟩) 0 ⟨0, 0, 0⟩ rfl rfl rfl rfl rfl).1

/-- Claim C5: every footprint record the pipeline stores is exactly
`box` of `mercantile.bounds` of its own base tile — west, south, east, north
— one record per covering tile in order; the records are a function of the
covering tile list alone, so they are independent of the polygon shapes and
of the fetched image contents. -/
theorem pipeline_metadata_is_tile_bounds {P : Type} (polys : List P)
    (tiler : P → List Tile) (fetch : Nat → Tile → Option Img)
    (bounds : Tile → LngLatBbox) :
    (download_tiles_pipeline polys tiler fetch bounds).metadata =
      (polys.flatMap tiler).map fun t =>
        ⟨fname t, box (bounds t).west (bounds t).south (bounds t).east (bounds t).north⟩ := by
  rw [download_tiles_pipeline_eq]
  rfl

/-- Claim C7: for a single polygon whose covering set is exactly one base
tile `t`, the pipeline issues exactly the four fetches `t`, column+1, row+1,
column+1/row+1 (in that order, at the same zoom), writes exactly one image
file, named `fname t`, and appends exactly one footprint record. -/
theorem pipeline_single_tile {P : Type} (p : P) (tiler : P → List Tile)
    (fetch : Nat → Tile → Option Img) (bounds : Tile → LngLatBbox) (t : Tile)
    (h : tiler p = [t]) :
    (download_tiles_pipeline [p] tiler fetch bounds).fetchCalls =
        [t, ⟨t.x + 1, t.y, t.z⟩, ⟨t.x, t.y + 1, t.z⟩, ⟨t.x + 1, t.y + 1, t.z⟩] ∧
    (download_tiles_pipeline [p] tiler fetch bounds).files.map Prod.fst = [fname t] ∧
    (download_tiles_pipeline [p] tiler fetch bounds).files.length = 1 ∧
    (download_tiles_pipeline [p] tiler fetch bounds).metadata = [recordOf bounds t] := by
  rw [download_tiles_pipeline_eq]
  have htl : [p].flatMap tiler = [t] := by simp [h]
  rw [htl]
  refine ⟨?_, ?_, ?_, ?_⟩
  · simp [neighbors]
  · simp [filesChar]
  · rfl
  · rfl

/-- Witness for C7: a concrete one-polygon, one-tile run. -/
theorem pipeline_single_tile_witness :
    (download_tiles_pipeline [()] (fun _ => [⟨5, 9, 2⟩]) (fun _ _ => none)
        (fun _ => ⟨0, 0, 0, 0⟩)).fetchCalls =
      [⟨5, 9, 2⟩, ⟨6, 9, 2⟩, ⟨5, 10, 2⟩, ⟨6, 10, 2⟩] :=
  (pipeline_single_tile () (fun _ => [⟨5, 9, 2⟩]) (fun _ _ => none)
    (fun _ => ⟨0, 0, 0, 0⟩) ⟨5, 9, 2⟩ rfl).1

lemma progChar_eq_filter (total : Nat) :
    ∀ (c d : Nat),
      progChar total d c =
        ((List.range c).map fun k => d + k + 1).filter
          (fun x => x % 5 == 0 || x == total) := by
  intro c
  induction c with
  | zero => intro d; rfl
  | succ c ih =>
    intro d
    rw [progChar, ih (d + 1), List.range_succ_eq_map, List.map_cons, List.filter_cons,
      List.map_map]
    have hfun : ((fun k => d + k + 1) ∘ fun k => k + 1) = fun k => d + 1 + k + 1 := by
      funext k
      show d + (k + 1) + 1 = d + 1 + k + 1
      omega
    rw [hfun]
    have e0 : d + 0 + 1 = d + 1 := by omega
    show (if (d + 1) % 5 == 0 || (d + 1) == total then [d + 1] else []) ++ _ = _
    rw [e0]
    by_cases hb : ((d + 1) % 5 == 0 || (d + 1) == total) = true
    · rw [if_pos hb, if_pos hb, List.singleton_append]
    · rw [if_neg hb, if_neg hb, List.nil_append]

/-- Claim C8: the pipeline counts completed tiles and emits a progress
observation exactly after every completion whose running count is a multiple
of 5 and after the final completion, where the count equals the
upfront-computed total covering tile count. -/
theorem pipeline_progress_cadence {P : Type} (polys : List P)
    (tiler : P → List Tile) (fetch : Nat → Tile → Option Img)
    (bounds : Tile → LngLatBbox) :
    (download_tiles_pipeline polys tiler fetch bounds).downloaded =
        (polys.flatMap tiler).length ∧
    (download_tiles_pipeline polys tiler fetch bounds).progress =
      ((List.range (polys.flatMap tiler).length).map fun k => k + 1).filter
        (fun d => d % 5 == 0 || d == (polys.flatMap tiler).length) := by
  rw [download_tiles_pipeline_eq]
  refine ⟨rfl, ?_⟩
  show progChar (polys.flatMap tiler).length 0 (polys.flatMap tiler).length = _
  rw [progChar_eq_filter]
  have hfun : (fun k => 0 + k + 1) = fun k : Nat => k + 1 := by
    funext k
    omega
  rw [hfun]

/-- The file the filesystem holds under `name` after a sequence of writes:
a later write to the same name overwrites an earlier one. -/
def finalFile (writes : List (String × Img)) (name : String) : Option Img :=
  writes.foldl (fun acc w => if w.1 = name then some w.2 else acc) none

/-- Claim C10: when the covering sets of two polygons contain the same tile
`t`, the pipeline processes it once per occurrence: it writes two files with
the same name — the later stitched image (from network calls 4..7)
overwriting the earlier one (from calls 0..3) — and the final metadata
contains one record per occurrence, with duplicate filenames. -/
theorem pipeline_duplicate_tile {P : Type} (p1 p2 : P) (tiler : P → List Tile)
    (fetch : Nat → Tile → Option Img) (bounds : Tile → LngLatBbox) (t : Tile)
    (h1 : tiler p1 = [t]) (h2 : tiler p2 = [t]) :
    (download_tiles_pipeline [p1, p2] tiler fetch bounds).files =
        [(fname t, stitchAt fetch 0 t), (fname t, stitchAt fetch 4 t)] ∧
    finalFile (download_tiles_pipeline [p1, p2] tiler fetch bounds).files (fname t) =
        some (stitchAt fetch 4 t) ∧
    (download_tiles_pipeline [p1, p2] tiler fetch bounds).metadata =
        [recordOf bounds t, recordOf bounds t] ∧
    (download_tiles_pipeline [p1, p2] tiler fetch bounds).metadata.map
        TileRecord.filename = [fname t, fname t] := by
  rw [download_tiles_pipeline_eq]
  have htl : [p1, p2].flatMap tiler = [t, t] := by simp [h1, h2]
  rw [htl]
  refine ⟨?_, ?_, ?_, ?_⟩
  · rfl
  · show finalFile [(fname t, stitchAt fetch 0 t), (fname t, stitchAt fetch (0 + 4) t)]
        (fname t) = some (stitchAt fetch 4 t)
    unfold finalFile
    rw [List.foldl_cons, List.foldl_cons, List.foldl_nil]
    rw [if_pos rfl]
  · rfl
  · rfl

/-- Witness for C10: a concrete two-polygon run sharing one tile. -/
theorem pipeline_duplicate_tile_witness :
    (download_tiles_pipeline [0, 1] (fun _ : Nat => [⟨3, 4, 5⟩]) (fun _ _ => none)
        (fun _ => ⟨0, 0, 0, 0⟩)).metadata.map TileRecord.filename =
      [fname ⟨3, 4, 5⟩, fname ⟨3, 4, 5⟩] :=
  (pipeline_duplicate_tile 0 1 (fun _ : Nat => [⟨3, 4, 5⟩]) (fun _ _ => none)
    (fun _ => ⟨0, 0, 0, 0⟩) ⟨3, 4, 5⟩ rfl rfl).2.2.2

/-- The coordinate-reference-system information of a loaded layer as the
script inspects it: absent (`gdf.crs is None`), an EPSG code
(`gdf.crs.to_epsg()`), or a CRS that has no EPSG code. -/
inductive CRSInfo where
  | undefined
  | epsg (code : Nat)
  | named (name : String)
deriving DecidableEq

/-- One feature row: its `geom_type` string and its coordinates, abstracted
as a list of points. -/
structure Feature where
  gtype : String
  coords : List (Rat × Rat)
deriving DecidableEq

/-- A loaded vector layer: CRS plus feature rows. -/
structure GeoDataFrame where
  crs : CRSInfo
  features : List Feature
deriving DecidableEq

/-- Embeds `geom_type.isin(['Polygon', 'MultiPolygon'])` for one feature. -/
def isPolygonal (f : Feature) : Bool :=
  f.gtype == "Polygon" || f.gtype == "MultiPolygon"

/-- Embeds `validate_geojson`.  `fileExists` abstracts `os.path.exists`,
`readResult` the outcome of `gpd.read_file` (`none` = it raised), and
`transform` the geometric reprojection done by `to_crs` (source CRS, target
EPSG code, features).  `Except.error msg` stands for `sys.exit(1)` after
logging `msg`.  `set_crs(epsg=4326, inplace=True)` relabels the CRS and
leaves every coordinate untouched, while `to_crs(epsg=4326)` rebuilds the
features through the reprojection. -/
def validate_geojson (fileExists : Bool) (readResult : Option GeoDataFrame)
    (transform : CRSInfo → Nat → List Feature → List Feature) :
    Except String GeoDataFrame :=
  if fileExists = false then .error "GeoJSON file not found"
  else
    match readResult with
    | none => .error "Failed to read GeoJSON file"
    | some gdf =>
      if gdf.features.length = 0 then .error "GeoJSON file contains no features"
      else
        let gdf2 :=
          match gdf.crs with
          | .undefined => { gdf with crs := .epsg 4326 }
          | .epsg c =>
            if c = 4326 then gdf
            else ⟨.epsg 4326, transform (.epsg c) 4326 gdf.features⟩
          | .named nm => ⟨.epsg 4326, transform (.named nm) 4326 gdf.features⟩
        if gdf2.features.all isPolygonal then .ok gdf2
        else .error "GeoJSON must contain only Polygon or MultiPolygon geometries"

/-- Claim C9: for an existing, readable, non-empty, all-polygonal input, an
absent CRS does not abort validation: the result is `ok` with the CRS set to
EPSG:4326 and the coordinates untouched by any reprojection; only a declared
CRS different from EPSG:4326 makes the features pass through the
reprojection to EPSG:4326. -/
theorem validate_geojson_crs_handling (gdf : GeoDataFrame)
    (transform : CRSInfo → Nat → List Feature → List Feature)
    (hnonempty : gdf.features ≠ [])
    (hpoly : gdf.features.all isPolygonal = true) :
    (gdf.crs = .undefined →
      validate_geojson true (some gdf) transform =
        .ok ⟨.epsg 4326, gdf.features⟩) ∧
    (∀ c, gdf.crs = .epsg c → c ≠ 4326 →
      (transform (.epsg c) 4326 gdf.features).all isPolygonal = true →
      validate_geojson true (some gdf) transform =
        .ok ⟨.epsg 4326, transform (.epsg c) 4326 gdf.features⟩) := by
  have hlen : ¬(gdf.features.length = 0) := by
    intro h0
    exact hnonempty (List.length_eq_zero.mp h0)
  constructor
  · intro hcrs
    simp [validate_geojson, hlen, hcrs, hpoly]
  · intro c hcrs hne htrans
    simp [validate_geojson, hlen, hcrs, hne, htrans]

/-- Witness for C9: a one-polygon layer with no CRS validates to EPSG:4326
with its coordinates unchanged. -/
theorem validate_geojson_crs_handling_witness :
    validate_geojson true (some ⟨.undefined, [⟨"Polygon", [(0, 0)]⟩]⟩)
        (fun _ _ fs => fs) =
      .ok ⟨.epsg 4326, [⟨"Polygon", [(0, 0)]⟩]⟩ :=
  (validate_geojson_crs_handling ⟨.undefined, [⟨"Polygon", [(0, 0)]⟩]⟩
    (fun _ _ fs => fs) (by simp) rfl).1 rfl

/-! ### Model of `get_tiles_for_bbox` (claim C6)

`get_tiles_for_bbox(bounds, zoom)` is `list(mercantile.tiles(w, s, e, n, zoom))`.
The model below transcribes the algorithm of `mercantile.tiles`/`mercantile.tile`
into the normalized web-mercator square: a point's x is `lng / 360 + 0.5` and
its y is the Mercator image of its latitude, `0` at the northern clip
(85.051129°), `1` at the southern clip, increasing southward.  In these
coordinates `mercantile.tiles`:
clips the box to the valid domain (the unit square); takes the upper-left
tile of the northwest corner and the lower-right tile of the southeast corner
nudged inward by `LL_EPSILON = 1e-11` degrees (`εx`, `εy` below, kept as
arguments because the y-image of a fixed latitude nudge varies with
latitude); and yields every tile in the rectangle between them, column-major.
`mercantile.tile` clamps coordinates at or beyond the domain edge to the
first/last tile and otherwise floors; its extra `1e-14` float-round-off
compensation before flooring has no counterpart in exact rational
arithmetic. -/

/-- One axis of `mercantile.tile` in normalized coordinates. -/
def tileIdx (v : Rat) (z : Nat) : Int :=
  if v ≤ 0 then 0
  else if 1 ≤ v then 2 ^ z - 1
  else ⌊v * 2 ^ z⌋

/-- The west edge of a tile in normalized x. -/
def tileMinX (t : Tile) : Rat := (t.x : Rat) / 2 ^ t.z

/-- The east edge of a tile in normalized x. -/
def tileMaxX (t : Tile) : Rat := ((t.x : Rat) + 1) / 2 ^ t.z

/-- The north edge of a tile in normalized y. -/
def tileMinY (t : Tile) : Rat := (t.y : Rat) / 2 ^ t.z

/-- The south edge of a tile in normalized y. -/
def tileMaxY (t : Tile) : Rat := ((t.y : Rat) + 1) / 2 ^ t.z

/-- The normalized-x image of the `1e-11`-degree longitude nudge. -/
def LL_EPS_X : Rat := 1 / (360 * 10 ^ 11)

/-- A representative normalized-y image of the `1e-11`-degree latitude
nudge (the exact image varies with latitude; every nonnegative value
satisfies the theorems below). -/
def LL_EPS_Y : Rat := 1 / 10 ^ 11

/-- Embeds `get_tiles_for_bbox` in normalized coordinates: the box runs from
`(x0, y0)` (northwest) to `(x1, y1)` (southeast). -/
def get_tiles_for_bbox (x0 y0 x1 y1 εx εy : Rat) (z : Nat) : List Tile :=
  (List.range (tileIdx (min 1 x1 - εx) z + 1 - tileIdx (max 0 x0) z).toNat).flatMap fun i =>
    (List.range (tileIdx (min 1 y1 - εy) z + 1 - tileIdx (max 0 y0) z).toNat).map fun j =>
      ⟨tileIdx (max 0 x0) z + Int.ofNat i, tileIdx (max 0 y0) z + Int.ofNat j, z⟩

lemma tileIdx_nonneg (v : Rat) (z : Nat) : 0 ≤ tileIdx v z := by
  have hp : (0 : Int) < 2 ^ z := pow_pos (by norm_num) z
  unfold tileIdx
  split_ifs with h1 h2
  · omega
  · omega
  · push_neg at h1
    have hq : (0 : Rat) ≤ v * 2 ^ z := by positivity
    exact Int.floor_nonneg.mpr hq

lemma tileIdx_mono {a b : Rat} (z : Nat) (hab : a ≤ b) : tileIdx a z ≤ tileIdx b z := by
  have hpq : (0 : Rat) < 2 ^ z := pow_pos (by norm_num) z
  by_cases ha0 : a ≤ 0
  · have ea : tileIdx a z = 0 := by unfold tileIdx; rw [if_pos ha0]
    rw [ea]
    exact tileIdx_nonneg b z
  · by_cases ha1 : 1 ≤ a
    · have hb1 : 1 ≤ b := le_trans ha1 hab
      have hb0 : ¬(b ≤ 0) := by linarith
      have ea : tileIdx a z = 2 ^ z - 1 := by unfold tileIdx; rw [if_neg ha0, if_pos ha1]
      have eb : tileIdx b z = 2 ^ z - 1 := by unfold tileIdx; rw [if_neg hb0, if_pos hb1]
      rw [ea, eb]
    · have ea : tileIdx a z = ⌊a * 2 ^ z⌋ := by unfold tileIdx; rw [if_neg ha0, if_neg ha1]
      rw [ea]
      by_cases hb1 : 1 ≤ b
      · have hb0 : ¬(b ≤ 0) := by linarith
        have eb : tileIdx b z = 2 ^ z - 1 := by unfold tileIdx; rw [if_neg hb0, if_pos hb1]
        rw [eb]
        push_neg at ha1
        have hlt : a * 2 ^ z < 2 ^ z := by nlinarith
        have hfl : ⌊a * 2 ^ z⌋ < 2 ^ z := by
          apply Int.floor_lt.mpr
          push_cast
          exact hlt
        omega
      · have hb0 : ¬(b ≤ 0) := by push_neg at ha0 ⊢; linarith
        have eb : tileIdx b z = ⌊b * 2 ^ z⌋ := by unfold tileIdx; rw [if_neg hb0, if_neg hb1]
        rw [eb]
        exact Int.floor_le_floor (mul_le_mul_of_nonneg_right hab hpq.le)

lemma tileIdx_cover (v : Rat) (z : Nat) (h0 : 0 ≤ v) (h1 : v ≤ 1) :
    ((tileIdx v z : Int) : Rat) / 2 ^ z ≤ v ∧
      v ≤ (((tileIdx v z : Int) : Rat) + 1) / 2 ^ z := by
  have hpq : (0 : Rat) < 2 ^ z := pow_pos (by norm_num) z
  by_cases hv0 : v ≤ 0
  · have hv : v = 0 := le_antisymm hv0 h0
    subst hv
    have e : tileIdx 0 z = 0 := by unfold tileIdx; rw [if_pos (le_refl 0)]
    rw [e]
    constructor
    · norm_num
    · positivity
  · by_cases hv1 : 1 ≤ v
    · have hv : v = 1 := le_antisymm h1 hv1
      subst hv
      have e : tileIdx 1 z = 2 ^ z - 1 := by
        unfold tileIdx
        rw [if_neg hv0, if_pos (le_refl 1)]
      rw [e]
      constructor
      · rw [div_le_one hpq]
        push_cast
        linarith
      · rw [le_div_iff₀ hpq]
        push_cast
        linarith
    · have e : tileIdx v z = ⌊v * 2 ^ z⌋ := by unfold tileIdx; rw [if_neg hv0, if_neg hv1]
      rw [e]
      constructor
      · rw [div_le_iff₀ hpq]
        exact Int.floor_le (v * 2 ^ z)
      · rw [le_div_iff₀ hpq]
        have hlt := Int.lt_floor_add_one (v * 2 ^ z)
        push_cast at hlt
        linarith

lemma mem_get_tiles_for_bbox (x0 y0 x1 y1 εx εy : Rat) (z : Nat) (i j : Int)
    (hxl : tileIdx (max 0 x0) z ≤ i) (hxr : i ≤ tileIdx (min 1 x1 - εx) z)
    (hyl : tileIdx (max 0 y0) z ≤ j) (hyr : j ≤ tileIdx (min 1 y1 - εy) z) :
    (⟨i, j, z⟩ : Tile) ∈ get_tiles_for_bbox x0 y0 x1 y1 εx εy z := by
  have hiA : (i - tileIdx (max 0 x0) z).toNat <
      (tileIdx (min 1 x1 - εx) z + 1 - tileIdx (max 0 x0) z).toNat := by omega
  have hjB : (j - tileIdx (max 0 y0) z).toNat <
      (tileIdx (min 1 y1 - εy) z + 1 - tileIdx (max 0 y0) z).toNat := by omega
  have hteq : (⟨tileIdx (max 0 x0) z + ((i - tileIdx (max 0 x0) z).toNat : Int),
      tileIdx (max 0 y0) z + ((j - tileIdx (max 0 y0) z).toNat : Int), z⟩ : Tile) =
      (⟨i, j, z⟩ : Tile) := by
    simp only [Tile.mk.injEq]
    exact ⟨by omega, by omega, trivial⟩
  unfold get_tiles_for_bbox
  apply List.mem_flatMap.mpr
  refine ⟨(i - tileIdx (max 0 x0) z).toNat, List.mem_range.mpr hiA, ?_⟩
  apply List.mem_map.mpr
  refine ⟨(j - tileIdx (max 0 y0) z).toNat, List.mem_range.mpr hjB, ?_⟩
  exact hteq

/-- Claim C6 (amended): for a query box inside the valid normalized
web-mercator domain (the unit square, i.e. longitudes within ±180° and
latitudes within the ±85.051129° clip) whose width and height are at least
the edge nudges `εx, εy ≥ 0`, the deterministic `get_tiles_for_bbox` returns
a nonempty tile list, and every point of the box that is at least `εx` west
of its east edge and at least `εy` north of its south edge lies inside the
bounds of some returned tile. -/
theorem get_tiles_for_bbox_covers (x0 y0 x1 y1 εx εy : Rat) (z : Nat)
    (hx0 : 0 ≤ x0) (hx1 : x1 ≤ 1) (hy0 : 0 ≤ y0) (hy1 : y1 ≤ 1)
    (hεx : 0 ≤ εx) (hεy : 0 ≤ εy)
    (hw : x0 ≤ x1 - εx) (hh : y0 ≤ y1 - εy) :
    get_tiles_for_bbox x0 y0 x1 y1 εx εy z ≠ [] ∧
    ∀ px py : Rat, x0 ≤ px → px ≤ x1 - εx → y0 ≤ py → py ≤ y1 - εy →
      ∃ t ∈ get_tiles_for_bbox x0 y0 x1 y1 εx εy z,
        tileMinX t ≤ px ∧ px ≤ tileMaxX t ∧ tileMinY t ≤ py ∧ py ≤ tileMaxY t := by
  have hmaxx : max 0 x0 = x0 := max_eq_right hx0
  have hminx : min 1 x1 = x1 := min_eq_right hx1
  have hmaxy : max 0 y0 = y0 := max_eq_right hy0
  have hminy : min 1 y1 = y1 := min_eq_right hy1
  constructor
  · apply List.ne_nil_of_mem
      (a := (⟨tileIdx (max 0 x0) z, tileIdx (max 0 y0) z, z⟩ : Tile))
    apply mem_get_tiles_for_bbox
    · exact le_refl _
    · rw [hmaxx, hminx]
      exact tileIdx_mono z hw
    · exact le_refl _
    · rw [hmaxy, hminy]
      exact tileIdx_mono z hh
  · intro px py hpx1 hpx2 hpy1 hpy2
    have hp0 : 0 ≤ px := le_trans hx0 hpx1
    have hp1 : px ≤ 1 := by linarith
    have hq0 : 0 ≤ py := le_trans hy0 hpy1
    have hq1 : py ≤ 1 := by linarith
    refine ⟨⟨tileIdx px z, tileIdx py z, z⟩, ?_, ?_, ?_, ?_, ?_⟩
    · apply mem_get_tiles_for_bbox
      · rw [hmaxx]
        exact tileIdx_mono z hpx1
      · rw [hminx]
        exact tileIdx_mono z hpx2
      · rw [hmaxy]
        exact tileIdx_mono z hpy1
      · rw [hminy]
        exact tileIdx_mono z hpy2
    · exact (tileIdx_cover px z hp0 hp1).1
    · exact (tileIdx_cover px z hp0 hp1).2
    · exact (tileIdx_cover py z hq0 hq1).1
    · exact (tileIdx_cover py z hq0 hq1).2

/-- Witness for the amended C6: the whole in-domain square at zoom 1 gets a
nonempty covering. -/
theorem get_tiles_for_bbox_covers_witness :
    get_tiles_for_bbox 0 0 1 1 LL_EPS_X LL_EPS_Y 1 ≠ [] :=
  (get_tiles_for_bbox_covers 0 0 1 1 LL_EPS_X LL_EPS_Y 1 (le_refl 0) (le_refl 1)
    (le_refl 0) (le_refl 1) (by norm_num [LL_EPS_X]) (by norm_num [LL_EPS_Y])
    (by norm_num [LL_EPS_X]) (by norm_num [LL_EPS_Y])).1

/-- Counterexample to claim C6 as stated: the box from normalized `(0, -1/10)`
to `(1, 1)` — in geographic terms all longitudes, from about 86.5°N (beyond
the web-mercator clip at 85.051129°) down to the southern clip — has nonzero
area, yet at zoom 0 the covering list is the single tile `(0, 0, 0)`, whose
normalized bounds start at `y = 0`: the box point `(1/2, -1/10)` lies in no
returned tile, so the union of the returned tiles' bounds does not contain
the box. -/
theorem get_tiles_for_bbox_counterexample :
    get_tiles_for_bbox 0 (-1/10) 1 1 LL_EPS_X LL_EPS_Y 0 = [⟨0, 0, 0⟩] ∧
    (0 : Rat) < 1 - 0 ∧ (0 : Rat) < 1 - (-1/10) ∧
    (0 : Rat) ≤ 1/2 ∧ (1/2 : Rat) ≤ 1 ∧ (-1/10 : Rat) ≤ 1 ∧
    ¬(tileMinY ⟨0, 0, 0⟩ ≤ -1/10) := by
  refine ⟨?_, by norm_num, by norm_num, by norm_num, by norm_num, by norm_num, ?_⟩
  · have e1 : tileIdx (max 0 (0 : Rat)) 0 = 0 := by
      norm_num [tileIdx]
    have e2 : tileIdx (max 0 (-1/10 : Rat)) 0 = 0 := by
      have hm : max (0 : Rat) (-1/10) = 0 := max_eq_left (by norm_num)
      rw [hm]
      norm_num [tileIdx]
    have e3 : tileIdx (min 1 (1 : Rat) - LL_EPS_X) 0 = 0 := by
      have hm : min (1 : Rat) 1 - LL_EPS_X = 35999999999999 / 36000000000000 := by
        norm_num [LL_EPS_X]
      rw [hm]
      unfold tileIdx
      rw [if_neg (by norm_num), if_neg (by norm_num), pow_zero, mul_one]
      have hmem : (35999999999999 / 36000000000000 : Rat) ∈ Set.Ico (0 : Rat) 1 := by
        constructor <;> norm_num
      exact Int.floor_eq_zero_iff.mpr hmem
    have e4 : tileIdx (min 1 (1 : Rat) - LL_EPS_Y) 0 = 0 := by
      have hm : min (1 : Rat) 1 - LL_EPS_Y = 99999999999 / 100000000000 := by
        norm_num [LL_EPS_Y]
      rw [hm]
      unfold tileIdx
      rw [if_neg (by norm_num), if_neg (by norm_num), pow_zero, mul_one]
      have hmem : (99999999999 / 100000000000 : Rat) ∈ Set.Ico (0 : Rat) 1 := by
        constructor <;> norm_num
      exact Int.floor_eq_zero_iff.mpr hmem
    unfold get_tiles_for_bbox
    rw [e1, e2, e3, e4]
    decide
  · norm_num [tileMinY]

end SatDetect
